import Mathlib

/-!
Verification of the SADS Attribute Resolution Engine of this repository
(`src/ai_sads_poc/generate_sads_attributes.py`, function
`parse_llm_sads_string_to_dict`, lines 300-425).

The Python function is shallowly embedded below.  Strings are Lean `String`s
(lists of characters); the Python string methods used by the source
(`strip`, `split(" ")`, `split("=", 1)`, `startswith`, `strip('"')`,
`lower`, `upper`, `capitalize`, `replace('-', '_')`, substring membership
`in`) are each embedded as an executable Lean function restricted to the
ASCII behaviour of the corresponding Python method.  The theme context
(`theme_context: Optional[Dict[str, Any]]`) is embedded as
`Option ThemeContext`, each category being an optional association list from
token names to raw CSS values (the source only ever consults key
membership).  `attr_value_dict: Dict[str, str]` is embedded as an
association list `AVDict`, and `attributes_map: Dict[str, Dict[str, str]]`
as an insertion-ordered association list `AttrMap` with Python-dict
overwrite semantics (`mapInsert`).  The source records per-fragment problems
by printing warnings; following the repository spec (section 4.3) these
print calls are modelled as a returned list of diagnostic strings, one
appended exactly where the source prints.  Every definition is total, which
models the guarantee that the Python code raises no exception on any input
string.
-/

/-- ASCII whitespace predicate of Python `str.strip()` (space, tab,
newline, carriage return, vertical tab, form feed). -/
def pyIsSpace (c : Char) : Bool :=
  c == ' ' || c == '\t' || c == '\n' || c == '\r' ||
  c == Char.ofNat 11 || c == Char.ofNat 12

/-- Remove the longest run of characters satisfying `p` from both ends of a
list; the common core of Python `str.strip()` and `str.strip('"')`. -/
def stripEnds (p : Char → Bool) (l : List Char) : List Char :=
  ((l.dropWhile p).reverse.dropWhile p).reverse

/-- Python `s.strip()` (whitespace from both ends). -/
def pyStrip (s : String) : String :=
  ⟨stripEnds pyIsSpace s.data⟩

/-- Python `s.strip('"')`: greedily remove double quotes from both ends. -/
def pyStripQuotes (s : String) : String :=
  ⟨stripEnds (fun c => c == '"') s.data⟩

/-- Python `s.split(sep)` for a one-character separator: splits at every
occurrence, keeping empty pieces, and returns `[""]` on the empty string. -/
def splitChar (sep : Char) : List Char → List (List Char)
  | [] => [[]]
  | c :: t =>
    if c == sep then [] :: splitChar sep t
    else
      match splitChar sep t with
      | [] => [[c]]
      | h :: r => (c :: h) :: r

/-- Python `s.split(sep, 1)` for a one-character separator, returned as
`none` when the separator is absent (the `len(parts) != 2` case of the
source) and as `some (before, after)` otherwise. -/
def splitFirst (sep : Char) : List Char → Option (List Char × List Char)
  | [] => none
  | c :: t =>
    if c == sep then some ([], t)
    else (splitFirst sep t).map (fun p => (c :: p.1, p.2))

/-- Python `hay.startswith(pre)` on the underlying character lists. -/
def leadsWith : List Char → List Char → Bool
  | [], _ => true
  | _ :: _, [] => false
  | a :: as, b :: bs => a == b && leadsWith as bs

/-- Python substring membership `needle in hay` on character lists. -/
def subList (needle : List Char) : List Char → Bool
  | [] => leadsWith needle []
  | c :: t => leadsWith needle (c :: t) || subList needle t

/-- Python substring membership `needle in hay` on strings. -/
def subStr (needle hay : String) : Bool :=
  subList needle.data hay.data

/-- First-match lookup in a character table. -/
def charMapLookup : List (Char × Char) → Char → Option Char
  | [], _ => none
  | p :: t, c => if c = p.1 then some p.2 else charMapLookup t c

/-- The ASCII lower-to-upper case table. -/
def upperTable : List (Char × Char) :=
  [('a','A'),('b','B'),('c','C'),('d','D'),('e','E'),('f','F'),('g','G'),
   ('h','H'),('i','I'),('j','J'),('k','K'),('l','L'),('m','M'),('n','N'),
   ('o','O'),('p','P'),('q','Q'),('r','R'),('s','S'),('t','T'),('u','U'),
   ('v','V'),('w','W'),('x','X'),('y','Y'),('z','Z')]

def pyUpperChar (c : Char) : Char :=
  match charMapLookup upperTable c with
  | some u => u
  | none => c

/-- The ASCII upper-to-lower case table. -/
def lowerTable : List (Char × Char) :=
  upperTable.map (fun p => (p.2, p.1))

/-- ASCII case of Python `str.lower()` on one character. -/
def pyLowerChar (c : Char) : Char :=
  match charMapLookup lowerTable c with
  | some u => u
  | none => c

/-- Python `s.lower()` (ASCII). -/
def pyLower (s : String) : String :=
  ⟨s.data.map pyLowerChar⟩

/-- Python `s.upper()` (ASCII). -/
def pyUpper (s : String) : String :=
  ⟨s.data.map pyUpperChar⟩

/-- Python `s.capitalize()`: first character upper-cased, all remaining
characters lower-cased. -/
def pyCapitalize : List Char → List Char
  | [] => []
  | c :: t => pyUpperChar c :: t.map pyLowerChar

/-- A theme category: an association list from token names to raw CSS
values, mirroring one `Dict[str, str]` entry of the theme context JSON. -/
abbrev TokenMap := List (String × String)

/-- One `attr_value_dict: Dict[str, str]` of the source: field name of the
conceptual `SadsAttributeValue` proto mapped to its string payload. -/
abbrev AVDict := List (String × String)

/-- The `attributes_map: Dict[str, Dict[str, str]]` of the source, as an
insertion-ordered association list. -/
abbrev AttrMap := List (String × AVDict)

/-- The SADS theme context: the token categories consulted by the engine.
An absent category models the key being absent from the Python dict; the
whole context is passed around as `Option ThemeContext`, `none` modelling
`theme_context is None` (a present-but-empty Python dict, also falsy,
behaves exactly like a context whose every category is absent). -/
structure ThemeContext where
  colors : Option TokenMap
  spacing : Option TokenMap
  fontSize : Option TokenMap
  fontWeight : Option TokenMap
  borderRadius : Option TokenMap
  shadow : Option TokenMap

/-- Python `"colors" in theme_context and value in theme_context["colors"]`:
the category exists and `v` is one of its keys. -/
def catHasKey (cat : Option TokenMap) (v : String) : Bool :=
  match cat with
  | none => false
  | some m => m.any (fun p => p.1 == v)

/-- Python dict assignment `attributes_map[sads_key] = v`: overwrite in
place when the key exists, append otherwise. -/
def hasKey (m : AttrMap) (k : String) : Bool :=
  match m with
  | [] => false
  | p :: t => if p.1 = k then true else hasKey t k

/-- Python dict assignment `attributes_map[k] = v` (insertion order kept,
later writes to the same key overwrite in place). -/
def mapInsert (m : AttrMap) (k : String) (v : AVDict) : AttrMap :=
  if hasKey m k then m.map (fun p => if p.1 = k then (k, v) else p)
  else m ++ [(k, v)]

/-- Python dict lookup `attributes_map[k]` as an `Option`. -/
def mapLookup (m : AttrMap) (k : String) : Option AVDict :=
  match m with
  | [] => none
  | p :: t => if p.1 = k then some p.2 else mapLookup t k

/-- Key normalization of the source (lines 348-350): if the key contains a
hyphen, split on `-`, keep the first part, and append the remaining parts
with Python `capitalize()` applied to each. -/
def normalizeKey (s : String) : String :=
  if s.data.contains '-' then
    match splitChar '-' s.data with
    | [] => s
    | p :: rest => ⟨p ++ (rest.map pyCapitalize).flatten⟩
  else s

/-- Token canonicalisation `value.upper().replace('-', '_')` of the
source (lines 365, 374, 390, 399). -/
def canonToken (v : String) : String :=
  ⟨(v.data.map pyUpperChar).map (fun c => if c == '-' then '_' else c)⟩

/-- Colors rule guard of the source (lines 360-362): `"colors" in
theme_context and value in theme_context["colors"] and any(k in
sads_key.lower() for k in ["color", "bg", "border"])`. -/
def colorsCond (t : ThemeContext) (sads_key value : String) : Bool :=
  catHasKey t.colors value &&
    (["color", "bg", "border"].any (fun n => subStr n (pyLower sads_key)))

/-- Spacing rule guard of the source (lines 369-371). -/
def spacingCond (t : ThemeContext) (sads_key value : String) : Bool :=
  catHasKey t.spacing value &&
    (["padding", "margin", "gap"].any (fun n => subStr n (pyLower sads_key)))

/-- Font-size rule guard of the source (lines 378-380). -/
def fontSizeCond (t : ThemeContext) (sads_key value : String) : Bool :=
  catHasKey t.fontSize value && subStr "fontsize" (pyLower sads_key)

/-- Font-weight rule guard of the source (lines 385-387). -/
def fontWeightCond (t : ThemeContext) (sads_key value : String) : Bool :=
  catHasKey t.fontWeight value && subStr "fontweight" (pyLower sads_key)

/-- Border-radius rule guard of the source (lines 394-396). -/
def borderRadiusCond (t : ThemeContext) (sads_key value : String) : Bool :=
  catHasKey t.borderRadius value && subStr "borderradius" (pyLower sads_key)

/-- The `elif` chain of category rules of the source (lines 358-401),
returning `none` when no rule fired (`mapped = False`). -/
def classifyTheme (t : ThemeContext) (sads_key value : String) :
    Option AVDict :=
  if colorsCond t sads_key value then
    some [("color_token", "COLOR_TOKEN_" ++ canonToken value)]
  else if spacingCond t sads_key value then
    some [("spacing_token", "SPACING_TOKEN_" ++ canonToken value)]
  else if fontSizeCond t sads_key value then
    some [("font_size_value", value)]
  else if fontWeightCond t sads_key value then
    some [("font_weight_token", "FONT_WEIGHT_TOKEN_" ++ canonToken value)]
  else if borderRadiusCond t sads_key value then
    some [("border_radius_token", "BORDER_RADIUS_TOKEN_" ++ canonToken value)]
  else none

/-- Generic CSS property allow-list of the source (lines 403-412). -/
def genericCssProps : List String :=
  ["textalign", "display", "position", "overflow", "cursor",
   "transition", "boxsizing", "resize"]

/-- The `if not mapped` fallback of the source (lines 402-417). -/
def classifyFallback (sads_key value : String) : AVDict :=
  if genericCssProps.contains (pyLower sads_key) then
    [("custom_value", value)]
  else if subStr "fontsize" (pyLower sads_key) then
    [("font_size_value", value)]
  else
    [("custom_value", value)]

/-- Classification of one normalized `(sads_key, value)` pair: the body of
the source's loop from line 354 (`if value.startswith("custom:")`) to line
417, producing `attr_value_dict`. -/
def classifyValue (tc : Option ThemeContext) (sads_key value : String) :
    AVDict :=
  if leadsWith "custom:".data value.data then
    [("custom_value", ⟨value.data.drop "custom:".data.length⟩)]
  else
    match tc with
    | none => classifyFallback sads_key value
    | some t =>
      match classifyTheme t sads_key value with
      | some d => d
      | none => classifyFallback sads_key value

/-- Result of the per-fragment tokenizer checks of the source (lines
333-351): an empty fragment is silently skipped, a fragment without `=`
and a fragment whose key lacks the `data-sads-` prefix are skipped with a
printed warning, and an accepted fragment yields the normalized key and
the quote-stripped value. -/
inductive TokResult where
  | empty : TokResult
  | noEq : TokResult
  | nonSads : TokResult
  | pair : String → String → TokResult
deriving DecidableEq

/-- Tokenizer checks of the source applied to one whitespace-delimited
fragment (lines 333-351): `if not attr.strip(): continue`, then
`attr.split("=", 1)`, then the `data-sads-` check on the stripped key,
then key normalization and value quote-stripping. -/
def tokenizeFragment (attr : String) : TokResult :=
  if pyStrip attr == "" then TokResult.empty
  else
    match splitFirst '=' attr.data with
    | none => TokResult.noEq
    | some (k0, v0) =>
      if leadsWith "data-sads-".data (stripEnds pyIsSpace k0) then
        TokResult.pair
          (normalizeKey ⟨stripEnds pyIsSpace
            ((stripEnds pyIsSpace k0).drop "data-sads-".data.length)⟩)
          (pyStripQuotes ⟨stripEnds pyIsSpace v0⟩)
      else TokResult.nonSads

/-- One iteration of the source's fragment loop (lines 332-424), threading
the attributes map and the diagnostics list (each modelled diagnostic
corresponds to one `print` of the source). -/
def stepFn (tc : Option ThemeContext) (acc : AttrMap × List String)
    (attr : String) : AttrMap × List String :=
  match tokenizeFragment attr with
  | TokResult.empty => acc
  | TokResult.noEq =>
    (acc.1, acc.2 ++ ["Warning: Skipping malformed attribute " ++ attr])
  | TokResult.nonSads =>
    (acc.1, acc.2 ++ ["Warning: Skipping non-SADS attribute " ++ attr])
  | TokResult.pair k v =>
    if classifyValue tc k v = [] then
      (mapInsert acc.1 k [("custom_value", v)],
       acc.2 ++ ["Warning: Could not determine value type for SADS key " ++ k])
    else (mapInsert acc.1 k (classifyValue tc k v), acc.2)

/-- The fragment list of the source:
`sads_attributes_string.strip().split(" ")`, after the early return on the
empty string. -/
def fragmentsOf (s : String) : List String :=
  if s == "" then []
  else (splitChar ' ' (pyStrip s).data).map (fun l => ⟨l⟩)

/-- The embedded `parse_llm_sads_string_to_dict` (source lines 300-425):
returns the attributes map (the `"attributes"` field of the returned dict)
together with the modelled diagnostics. -/
def parse_llm_sads_string_to_dict (s : String) (tc : Option ThemeContext) :
    AttrMap × List String :=
  (fragmentsOf s).foldl (stepFn tc) ([], [])

/-- Shared demonstration theme used by concrete witnesses. -/
def demoTheme : ThemeContext :=
  ⟨some [("primary", "#123"), ("m", "#111")],
   some [("m", "1rem"), ("s", "0.5rem")],
   some [("body", "16px")],
   some [("bold", "700")],
   some [("lg", "8px")],
   none⟩

/-- Property of one `attr_value_dict` entry produced for the raw value
`v`: whenever the entry is one of the four token-reference variants, that
very `v` existed verbatim as a key of the corresponding category of the
theme context and the stored payload is the canonical form of `v`. -/
def TokenEntryOkFor (tc : Option ThemeContext) (v : String)
    (e : String × String) : Prop :=
  (e.1 = "color_token" → ∃ t, tc = some t ∧ catHasKey t.colors v = true ∧
    e.2 = "COLOR_TOKEN_" ++ canonToken v) ∧
  (e.1 = "spacing_token" → ∃ t, tc = some t ∧ catHasKey t.spacing v = true ∧
    e.2 = "SPACING_TOKEN_" ++ canonToken v) ∧
  (e.1 = "font_weight_token" → ∃ t, tc = some t ∧
    catHasKey t.fontWeight v = true ∧
    e.2 = "FONT_WEIGHT_TOKEN_" ++ canonToken v) ∧
  (e.1 = "border_radius_token" → ∃ t, tc = some t ∧
    catHasKey t.borderRadius v = true ∧
    e.2 = "BORDER_RADIUS_TOKEN_" ++ canonToken v)

/-- Key normalization of the source with the redundant contains-check
dropped: split on hyphen unconditionally, keep the first part, apply
Python `capitalize()` (first character upper-cased, all remaining
characters of the part lower-cased) to each later part, and concatenate.
Stated separately to express the amended form of claim C7. -/
def amendedNormalizeKey (s : String) : String :=
  match splitChar '-' s.data with
  | [] => s
  | p :: rest => ⟨p ++ (rest.map pyCapitalize).flatten⟩

/-- Upper-case only the first character of a segment, leaving the rest
unchanged (the operation claim C7's wording describes for the later
segments). -/
def capFirstOnly : List Char → List Char
  | [] => []
  | c :: t => pyUpperChar c :: t

/-- Normalization as claim C7 words it, written from the spec's words and
deliberately not from the source, to compare against `normalizeKey`:
split on `-`, lower-case the first segment, capitalize the first letter of
each subsequent segment (other characters unchanged), concatenate. -/
def claimNormalizeKey (s : String) : String :=
  if s.data.contains '-' then
    match splitChar '-' s.data with
    | [] => s
    | p :: rest => ⟨p.map pyLowerChar ++ (rest.map capFirstOnly).flatten⟩
  else s

/-- A fragment that passes every tokenizer check. -/
def fragAccepted (f : String) : Bool :=
  match tokenizeFragment f with
  | TokResult.pair _ _ => true
  | _ => false

/-- A nonempty fragment the tokenizer rejects: it lacks `=`, or its
stripped key lacks the `data-sads-` prefix (whitespace-only split
artifacts are silently ignored by the source and are not malformed
fragments). -/
def fragMalformed (f : String) : Bool :=
  match tokenizeFragment f with
  | TokResult.noEq => true
  | TokResult.nonSads => true
  | _ => false

/-- The map-building effect of one accepted fragment. -/
def mapStep (tc : Option ThemeContext) (m : AttrMap) (f : String) : AttrMap :=
  match tokenizeFragment f with
  | TokResult.pair k v => mapInsert m k (classifyValue tc k v)
  | _ => m

/-- Number of malformed fragments of a fragment list. -/
def countMalformed : List String → Nat
  | [] => 0
  | f :: t => (if fragMalformed f then 1 else 0) + countMalformed t

/-- Characters of a lower-case token name: lowercase ASCII letters, digits
and underscore. -/
def tokenCharList : List Char :=
  ['a','b','c','d','e','f','g','h','i','j','k','l','m','n','o','p','q','r',
   's','t','u','v','w','x','y','z','0','1','2','3','4','5','6','7','8','9','_']

/-- Theme used by the C9 counterexample: two color token names that differ
only in letter case. -/
def caseTheme : ThemeContext :=
  ⟨some [("m", "#1"), ("M", "#2")], none, none, none, none, none⟩

theorem classifyFallback_length (k v : String) :
    (classifyFallback k v).length = 1 := by
  unfold classifyFallback
  split
  · rfl
  · split <;> rfl

theorem classifyTheme_length (t : ThemeContext) (k v : String) (d : AVDict)
    (h : classifyTheme t k v = some d) : d.length = 1 := by
  unfold classifyTheme at h
  repeat' split at h
  any_goals exact Option.noConfusion h
  all_goals (injection h with h; subst h; rfl)

theorem classifyValue_length (tc : Option ThemeContext) (k v : String) :
    (classifyValue tc k v).length = 1 := by
  unfold classifyValue
  split
  · rfl
  · cases tc with
    | none => exact classifyFallback_length k v
    | some t =>
      cases h : classifyTheme t k v with
      | none => simp only [h]; exact classifyFallback_length k v
      | some d => simp only [h]; exact classifyTheme_length t k v d h

theorem classifyValue_ne_nil (tc : Option ThemeContext) (k v : String) :
    classifyValue tc k v ≠ [] := by
  intro h
  have hl := classifyValue_length tc k v
  rw [h] at hl
  exact absurd hl (by decide)

theorem lookup_mapReplace_ne (m : AttrMap) (k k' : String) (v : AVDict)
    (h : k' ≠ k) :
    mapLookup (m.map (fun p => if p.1 = k then (k, v) else p)) k'
      = mapLookup m k' := by
  induction m with
  | nil => rfl
  | cons q t ih =>
    by_cases hq : q.1 = k
    · have h1 : ¬ k = k' := fun e => h e.symm
      have h2 : ¬ q.1 = k' := fun e => h (hq ▸ e).symm
      simp [mapLookup, hq, h1, h2, ih]
    · by_cases hq' : q.1 = k'
      · simp [mapLookup, hq, hq', h, ih]
      · simp [mapLookup, hq, hq', ih]

theorem lookup_append_single (m : AttrMap) (k k' : String) (v : AVDict) :
    mapLookup (m ++ [(k, v)]) k'
      = match mapLookup m k' with
        | some d => some d
        | none => if k = k' then some v else none := by
  induction m with
  | nil => simp [mapLookup]
  | cons q t ih =>
    by_cases hq : q.1 = k'
    · simp [mapLookup, hq]
    · simp only [List.cons_append, mapLookup, hq, if_neg, if_false]
      exact ih

theorem lookup_mapInsert_self (m : AttrMap) (k : String) (v : AVDict) :
    mapLookup (mapInsert m k v) k = some v := by
  unfold mapInsert
  split
  · rename_i hk
    induction m with
    | nil => simp [hasKey] at hk
    | cons q t ih =>
      by_cases hq : q.1 = k
      · simp [mapLookup, hq]
      · have ht : hasKey t k = true := by
          simpa [hasKey, hq] using hk
        simp [mapLookup, hq, ih ht]
  · rename_i hk
    have hnone : mapLookup m k = none := by
      induction m with
      | nil => rfl
      | cons q t ih =>
        by_cases hq : q.1 = k
        · simp [hasKey, hq] at hk
        · have ht : ¬ hasKey t k = true := by
            intro e
            simp [hasKey, e] at hk
          simp [mapLookup, hq, ih ht]
    rw [lookup_append_single, hnone]
    simp

theorem lookup_mapInsert_ne (m : AttrMap) (k k' : String) (v : AVDict)
    (h : k' ≠ k) :
    mapLookup (mapInsert m k v) k' = mapLookup m k' := by
  unfold mapInsert
  split
  · exact lookup_mapReplace_ne m k k' v h
  · rw [lookup_append_single]
    have h1 : ¬ k = k' := fun e => h e.symm
    cases hm : mapLookup m k' with
    | none => simp [h1]
    | some d => simp

theorem hasKey_iff_lookup (m : AttrMap) (k : String) :
    hasKey m k = true ↔ (mapLookup m k).isSome = true := by
  induction m with
  | nil => simp [hasKey, mapLookup]
  | cons q t ih =>
    by_cases hq : q.1 = k
    · simp [hasKey, mapLookup, hq]
    · simp [hasKey, mapLookup, hq, ih]

theorem hasKey_mapInsert_self (m : AttrMap) (k : String) (v : AVDict) :
    hasKey (mapInsert m k v) k = true := by
  rw [hasKey_iff_lookup, lookup_mapInsert_self]
  rfl

theorem hasKey_mapInsert_mono (m : AttrMap) (k k' : String) (v : AVDict)
    (h : hasKey m k' = true) :
    hasKey (mapInsert m k v) k' = true := by
  by_cases hk : k' = k
  · subst hk
    exact hasKey_mapInsert_self m k' v
  · rw [hasKey_iff_lookup, lookup_mapInsert_ne m k k' v hk]
    exact (hasKey_iff_lookup m k').mp h

theorem mem_mapInsert (m : AttrMap) (k : String) (v : AVDict)
    (p : String × AVDict) (hp : p ∈ mapInsert m k v) :
    p ∈ m ∨ p = (k, v) := by
  unfold mapInsert at hp
  split at hp
  · rcases List.mem_map.mp hp with ⟨q, hq, he⟩
    by_cases hqk : q.1 = k
    · right
      rw [if_pos hqk] at he
      exact he.symm
    · left
      rw [if_neg hqk] at he
      exact he ▸ hq
  · rcases List.mem_append.mp hp with h1 | h1
    · exact Or.inl h1
    · exact Or.inr (List.mem_singleton.mp h1)

theorem stepFn_empty_eq (tc : Option ThemeContext)
    (acc : AttrMap × List String) (f : String)
    (h : tokenizeFragment f = TokResult.empty) :
    stepFn tc acc f = acc := by
  unfold stepFn
  rw [h]

theorem stepFn_noEq_eq (tc : Option ThemeContext)
    (acc : AttrMap × List String) (f : String)
    (h : tokenizeFragment f = TokResult.noEq) :
    stepFn tc acc f
      = (acc.1, acc.2 ++ ["Warning: Skipping malformed attribute " ++ f]) := by
  unfold stepFn
  rw [h]

theorem stepFn_nonSads_eq (tc : Option ThemeContext)
    (acc : AttrMap × List String) (f : String)
    (h : tokenizeFragment f = TokResult.nonSads) :
    stepFn tc acc f
      = (acc.1, acc.2 ++ ["Warning: Skipping non-SADS attribute " ++ f]) := by
  unfold stepFn
  rw [h]

theorem stepFn_pair_eq (tc : Option ThemeContext)
    (acc : AttrMap × List String) (f k v : String)
    (h : tokenizeFragment f = TokResult.pair k v) :
    stepFn tc acc f = (mapInsert acc.1 k (classifyValue tc k v), acc.2) := by
  unfold stepFn
  rw [h]
  exact if_neg (classifyValue_ne_nil tc k v)

theorem stepFn_fst_inv (tc : Option ThemeContext)
    (P : String × AVDict → Prop)
    (hcls : ∀ k v, P (k, classifyValue tc k v))
    (acc : AttrMap × List String) (f : String)
    (hacc : ∀ p ∈ acc.1, P p) :
    ∀ p ∈ (stepFn tc acc f).1, P p := by
  intro p hp
  cases htok : tokenizeFragment f with
  | empty =>
    rw [stepFn_empty_eq tc acc f htok] at hp
    exact hacc p hp
  | noEq =>
    rw [stepFn_noEq_eq tc acc f htok] at hp
    exact hacc p hp
  | nonSads =>
    rw [stepFn_nonSads_eq tc acc f htok] at hp
    exact hacc p hp
  | pair k v =>
    rw [stepFn_pair_eq tc acc f k v htok] at hp
    rcases mem_mapInsert _ _ _ p hp with h1 | h1
    · exact hacc p h1
    · rw [h1]
      exact hcls k v

theorem foldl_fst_inv (tc : Option ThemeContext)
    (P : String × AVDict → Prop)
    (hcls : ∀ k v, P (k, classifyValue tc k v)) :
    ∀ (fs : List String) (acc : AttrMap × List String),
      (∀ p ∈ acc.1, P p) → ∀ p ∈ (fs.foldl (stepFn tc) acc).1, P p := by
  intro fs
  induction fs with
  | nil => intro acc h; exact h
  | cons f rest ih =>
    intro acc h
    exact ih (stepFn tc acc f) (stepFn_fst_inv tc P hcls acc f h)

theorem stepFn_pair_hasKey (tc : Option ThemeContext)
    (acc : AttrMap × List String) (f k v : String)
    (h : tokenizeFragment f = TokResult.pair k v) :
    hasKey (stepFn tc acc f).1 k = true := by
  rw [stepFn_pair_eq tc acc f k v h]
  exact hasKey_mapInsert_self _ _ _

theorem stepFn_hasKey_mono (tc : Option ThemeContext)
    (acc : AttrMap × List String) (f k : String)
    (h : hasKey acc.1 k = true) :
    hasKey (stepFn tc acc f).1 k = true := by
  cases htok : tokenizeFragment f with
  | empty =>
    rw [stepFn_empty_eq tc acc f htok]
    exact h
  | noEq =>
    rw [stepFn_noEq_eq tc acc f htok]
    exact h
  | nonSads =>
    rw [stepFn_nonSads_eq tc acc f htok]
    exact h
  | pair k2 v2 =>
    rw [stepFn_pair_eq tc acc f k2 v2 htok]
    exact hasKey_mapInsert_mono _ _ _ _ h

theorem foldl_hasKey_mono (tc : Option ThemeContext) :
    ∀ (fs : List String) (acc : AttrMap × List String) (k : String),
      hasKey acc.1 k = true →
      hasKey ((fs.foldl (stepFn tc) acc)).1 k = true := by
  intro fs
  induction fs with
  | nil => intro acc k h; exact h
  | cons f rest ih =>
    intro acc k h
    exact ih _ k (stepFn_hasKey_mono tc acc f k h)

theorem foldl_pair_hasKey (tc : Option ThemeContext) :
    ∀ (fs : List String) (acc : AttrMap × List String) (f k v : String),
      f ∈ fs → tokenizeFragment f = TokResult.pair k v →
      hasKey ((fs.foldl (stepFn tc) acc)).1 k = true := by
  intro fs
  induction fs with
  | nil =>
    intro acc f k v h
    exact absurd h (List.not_mem_nil f)
  | cons g rest ih =>
    intro acc f k v hmem htok
    rcases List.mem_cons.mp hmem with he | hm
    · subst he
      exact foldl_hasKey_mono tc rest _ k (stepFn_pair_hasKey tc acc f k v htok)
    · exact ih _ f k v hm htok

/-- C1: for every input string and every theme context the engine (a total
function: the embedding raises nothing by construction) gives every entry
of the returned attributes map exactly one populated variant (never zero,
never more than one), and every fragment that passes the tokenizer checks
(contains `=`, stripped key starts with `data-sads-`) has its normalized
key present in the returned map. -/
theorem sads_c1_total_exactly_one (s : String) (tc : Option ThemeContext) :
    (∀ p ∈ (parse_llm_sads_string_to_dict s tc).1, p.2.length = 1) ∧
    (∀ f ∈ fragmentsOf s, ∀ k v, tokenizeFragment f = TokResult.pair k v →
      hasKey (parse_llm_sads_string_to_dict s tc).1 k = true) := by
  constructor
  · exact foldl_fst_inv tc (fun p => p.2.length = 1)
      (fun k v => classifyValue_length tc k v)
      (fragmentsOf s) ([], []) (by intro p hp; cases hp)
  · intro f hf k v htok
    exact foldl_pair_hasKey tc (fragmentsOf s) ([], []) f k v hf htok

/-- Witness for C1 at a concrete input: the accepted fragment
`data-sads-bgColor="primary"` ends up as a key of the returned map. -/
theorem sads_c1_witness :
    hasKey
      (parse_llm_sads_string_to_dict "data-sads-bgColor=\"primary\"" none).1
      "bgColor" = true :=
  (sads_c1_total_exactly_one "data-sads-bgColor=\"primary\"" none).2
    "data-sads-bgColor=\"primary\"" (by decide) "bgColor" "primary" (by decide)

/-- C2: whenever the raw value starts with the literal `custom:`, the
classifier yields the `custom_value` variant holding the value with the
prefix stripped, for every theme context and every attribute name — in
particular even when the remaining suffix is a valid token key of some
category. -/
theorem sads_c2_custom_wins (tc : Option ThemeContext) (k v : String)
    (h : leadsWith "custom:".data v.data = true) :
    classifyValue tc k v
      = [("custom_value", ⟨v.data.drop "custom:".data.length⟩)] := by
  unfold classifyValue
  simp [h]

/-- Witness for C2: `custom:primary` yields `CustomValue("primary")` even
though `primary` is a valid color token of the theme and the attribute
name `bgColor` matches the colors substring rule. -/
theorem sads_c2_witness :
    classifyValue (some demoTheme) "bgColor" "custom:primary"
      = [("custom_value", "primary")] := by
  rw [sads_c2_custom_wins (some demoTheme) "bgColor" "custom:primary"
    (by decide)]
  decide

theorem classifyValue_some_eq (t : ThemeContext) (k v : String)
    (h : leadsWith "custom:".data v.data = false) :
    classifyValue (some t) k v =
      match classifyTheme t k v with
      | some d => d
      | none => classifyFallback k v := by
  unfold classifyValue
  rw [h]
  rfl

/-- C3: when the raw value has no `custom:` mark, the category rules are
tried in the fixed order colors, spacing, fontSize, fontWeight,
borderRadius, and the earliest satisfied rule decides the produced
variant; each conjunct leaves every later rule's guard unconstrained, so
in particular an attribute whose name and value satisfy the guards of
several categories resolves via the earliest one. -/
theorem sads_c3_category_precedence (t : ThemeContext) (k v : String)
    (hnc : leadsWith "custom:".data v.data = false) :
    (colorsCond t k v = true →
      classifyValue (some t) k v
        = [("color_token", "COLOR_TOKEN_" ++ canonToken v)]) ∧
    (colorsCond t k v = false → spacingCond t k v = true →
      classifyValue (some t) k v
        = [("spacing_token", "SPACING_TOKEN_" ++ canonToken v)]) ∧
    (colorsCond t k v = false → spacingCond t k v = false →
      fontSizeCond t k v = true →
      classifyValue (some t) k v = [("font_size_value", v)]) ∧
    (colorsCond t k v = false → spacingCond t k v = false →
      fontSizeCond t k v = false → fontWeightCond t k v = true →
      classifyValue (some t) k v
        = [("font_weight_token", "FONT_WEIGHT_TOKEN_" ++ canonToken v)]) ∧
    (colorsCond t k v = false → spacingCond t k v = false →
      fontSizeCond t k v = false → fontWeightCond t k v = false →
      borderRadiusCond t k v = true →
      classifyValue (some t) k v
        = [("border_radius_token", "BORDER_RADIUS_TOKEN_" ++ canonToken v)]) := by
  refine ⟨?_, ?_, ?_, ?_, ?_⟩
  · intro h1
    rw [classifyValue_some_eq t k v hnc]
    unfold classifyTheme
    rw [h1]
    rfl
  · intro h1 h2
    rw [classifyValue_some_eq t k v hnc]
    unfold classifyTheme
    rw [h1, h2]
    rfl
  · intro h1 h2 h3
    rw [classifyValue_some_eq t k v hnc]
    unfold classifyTheme
    rw [h1, h2, h3]
    rfl
  · intro h1 h2 h3 h4
    rw [classifyValue_some_eq t k v hnc]
    unfold classifyTheme
    rw [h1, h2, h3, h4]
    rfl
  · intro h1 h2 h3 h4 h5
    rw [classifyValue_some_eq t k v hnc]
    unfold classifyTheme
    rw [h1, h2, h3, h4, h5]
    rfl

/-- Witness for C3: the attribute name `borderPadding` satisfies the
substring guard of both colors (`border`) and spacing (`padding`) and the
value `m` is a token key of both the colors and spacing tables of
`demoTheme`, yet the colors rule, checked first, wins. -/
theorem sads_c3_witness :
    classifyValue (some demoTheme) "borderPadding" "m"
      = [("color_token", "COLOR_TOKEN_M")] := by
  rw [(sads_c3_category_precedence demoTheme "borderPadding" "m"
    (by decide)).1 (by decide)]
  decide

theorem foldl_lookup_unchanged (tc : Option ThemeContext) (k : String) :
    ∀ (fs : List String) (acc : AttrMap × List String),
      (∀ g ∈ fs, ∀ v', tokenizeFragment g ≠ TokResult.pair k v') →
      mapLookup ((fs.foldl (stepFn tc) acc)).1 k = mapLookup acc.1 k := by
  intro fs
  induction fs with
  | nil => intro acc _; rfl
  | cons g rest ih =>
    intro acc h
    have hrest : ∀ g' ∈ rest, ∀ v', tokenizeFragment g' ≠ TokResult.pair k v' :=
      fun g' hg' => h g' (List.mem_cons_of_mem g hg')
    rw [List.foldl_cons, ih (stepFn tc acc g) hrest]
    cases htok : tokenizeFragment g with
    | empty => rw [stepFn_empty_eq tc acc g htok]
    | noEq => rw [stepFn_noEq_eq tc acc g htok]
    | nonSads => rw [stepFn_nonSads_eq tc acc g htok]
    | pair k2 v2 =>
      rw [stepFn_pair_eq tc acc g k2 v2 htok]
      have hne : k ≠ k2 := by
        intro e
        rw [← e] at htok
        exact h g (List.mem_cons_self g rest) v2 htok
      exact lookup_mapInsert_ne acc.1 k2 k (classifyValue tc k2 v2) hne

theorem parse_lookup_last (s : String) (tc : Option ThemeContext)
    (l1 l2 : List String) (f k v : String)
    (hsplit : fragmentsOf s = l1 ++ f :: l2)
    (hf : tokenizeFragment f = TokResult.pair k v)
    (hlast : ∀ g ∈ l2, ∀ v', tokenizeFragment g ≠ TokResult.pair k v') :
    mapLookup (parse_llm_sads_string_to_dict s tc).1 k
      = some (classifyValue tc k v) := by
  unfold parse_llm_sads_string_to_dict
  rw [hsplit, List.foldl_append, List.foldl_cons]
  rw [foldl_lookup_unchanged tc k l2 _ hlast]
  rw [stepFn_pair_eq tc _ f k v hf]
  exact lookup_mapInsert_self _ k _

/-- C4: when the fragment list of the input splits as `l1 ++ f :: l2`
where `f` is accepted with normalized key `k` and no fragment of `l2` is
accepted with the same key `k` (so `f` is the last such fragment in
left-to-right order), the returned map sends `k` to the classification of
`f`'s value — later writes overwrite earlier ones. -/
theorem sads_c4_last_write_wins (s : String) (tc : Option ThemeContext)
    (l1 l2 : List String) (f k v : String)
    (hsplit : fragmentsOf s = l1 ++ f :: l2)
    (hf : tokenizeFragment f = TokResult.pair k v)
    (hlast : ∀ g ∈ l2, ∀ v', tokenizeFragment g ≠ TokResult.pair k v') :
    mapLookup (parse_llm_sads_string_to_dict s tc).1 k
      = some (classifyValue tc k v) :=
  parse_lookup_last s tc l1 l2 f k v hsplit hf hlast

/-- Witness for C4 at the spec's concrete scenario:
`data-sads-padding="s" data-sads-padding="m"` with both `s` and `m` valid
spacing tokens resolves `padding` to the token of `m`, not of `s`. -/
theorem sads_c4_witness :
    mapLookup
      (parse_llm_sads_string_to_dict
        "data-sads-padding=\"s\" data-sads-padding=\"m\""
        (some demoTheme)).1
      "padding" = some [("spacing_token", "SPACING_TOKEN_M")] := by
  rw [sads_c4_last_write_wins
    "data-sads-padding=\"s\" data-sads-padding=\"m\"" (some demoTheme)
    ["data-sads-padding=\"s\""] [] "data-sads-padding=\"m\"" "padding" "m"
    (by decide) (by decide)
    (by intro g hg v'; exact absurd hg (List.not_mem_nil g))]
  decide

theorem entry_okFor_of_field (tc : Option ThemeContext) (v : String)
    (e : String × String)
    (h : e.1 = "custom_value" ∨ e.1 = "font_size_value") :
    TokenEntryOkFor tc v e := by
  rcases h with h | h <;>
    exact ⟨fun hf => absurd (h.symm.trans hf) (by decide),
      fun hf => absurd (h.symm.trans hf) (by decide),
      fun hf => absurd (h.symm.trans hf) (by decide),
      fun hf => absurd (h.symm.trans hf) (by decide)⟩

theorem classifyFallback_entry_field (k v : String) :
    ∀ e ∈ classifyFallback k v,
      e.1 = "custom_value" ∨ e.1 = "font_size_value" := by
  intro e he
  unfold classifyFallback at he
  split at he
  · left
    rw [List.mem_singleton.mp he]
  · split at he
    · right
      rw [List.mem_singleton.mp he]
    · left
      rw [List.mem_singleton.mp he]

theorem classifyTheme_entry_ok (t : ThemeContext) (k v : String) (d : AVDict)
    (h : classifyTheme t k v = some d) :
    ∀ e ∈ d, TokenEntryOkFor (some t) v e := by
  unfold classifyTheme at h
  split at h
  · rename_i hc
    injection h with h
    subst h
    intro e he
    rw [List.mem_singleton.mp he]
    unfold colorsCond at hc
    refine ⟨fun _ => ⟨t, rfl, ((Bool.and_eq_true _ _).mp hc).1, rfl⟩,
      fun hf => by simp at hf, fun hf => by simp at hf,
      fun hf => by simp at hf⟩
  · split at h
    · rename_i hc
      injection h with h
      subst h
      intro e he
      rw [List.mem_singleton.mp he]
      unfold spacingCond at hc
      refine ⟨fun hf => by simp at hf,
        fun _ => ⟨t, rfl, ((Bool.and_eq_true _ _).mp hc).1, rfl⟩,
        fun hf => by simp at hf, fun hf => by simp at hf⟩
    · split at h
      · injection h with h
        subst h
        intro e he
        rw [List.mem_singleton.mp he]
        exact entry_okFor_of_field (some t) v _ (Or.inr rfl)
      · split at h
        · rename_i hc
          injection h with h
          subst h
          intro e he
          rw [List.mem_singleton.mp he]
          unfold fontWeightCond at hc
          refine ⟨fun hf => by simp at hf,
            fun hf => by simp at hf,
            fun _ => ⟨t, rfl, ((Bool.and_eq_true _ _).mp hc).1, rfl⟩,
            fun hf => by simp at hf⟩
        · split at h
          · rename_i hc
            injection h with h
            subst h
            intro e he
            rw [List.mem_singleton.mp he]
            unfold borderRadiusCond at hc
            refine ⟨fun hf => by simp at hf,
              fun hf => by simp at hf,
              fun hf => by simp at hf,
              fun _ => ⟨t, rfl, ((Bool.and_eq_true _ _).mp hc).1, rfl⟩⟩
          · exact Option.noConfusion h

theorem classifyValue_vouches (tc : Option ThemeContext) (k v : String) :
    ∀ e ∈ classifyValue tc k v, TokenEntryOkFor tc v e := by
  intro e he
  unfold classifyValue at he
  split at he
  · rw [List.mem_singleton.mp he]
    exact entry_okFor_of_field tc v _ (Or.inl rfl)
  · cases tc with
    | none =>
      exact entry_okFor_of_field none v _ (classifyFallback_entry_field k v e he)
    | some t =>
      have he' : e ∈ (match classifyTheme t k v with
        | some d => d
        | none => classifyFallback k v) := he
      cases hct : classifyTheme t k v with
      | none =>
        rw [hct] at he'
        exact entry_okFor_of_field (some t) v _
          (classifyFallback_entry_field k v e he')
      | some d =>
        rw [hct] at he'
        exact classifyTheme_entry_ok t k v d hct e he'

theorem hasKey_mapInsert_ne (m : AttrMap) (k k' : String) (v : AVDict)
    (h : k' ≠ k) :
    hasKey (mapInsert m k v) k' = hasKey m k' := by
  cases h2 : hasKey m k' with
  | true => exact hasKey_mapInsert_mono m k k' v h2
  | false =>
    cases h3 : hasKey (mapInsert m k v) k' with
    | false => rfl
    | true =>
      have h4 : (mapLookup (mapInsert m k v) k').isSome = true :=
        (hasKey_iff_lookup _ _).mp h3
      rw [lookup_mapInsert_ne m k k' v h] at h4
      have h5 : hasKey m k' = true := (hasKey_iff_lookup _ _).mpr h4
      rw [h2] at h5
      exact h5.symm

theorem hasKey_origin (tc : Option ThemeContext)
    (fs : List String) (acc : AttrMap × List String) (k : String) :
    hasKey ((fs.foldl (stepFn tc) acc)).1 k = true →
    hasKey acc.1 k = true ∨
      ∃ l1 l2 f v, fs = l1 ++ f :: l2 ∧
        tokenizeFragment f = TokResult.pair k v ∧
        ∀ g ∈ l2, ∀ v', tokenizeFragment g ≠ TokResult.pair k v' := by
  induction fs using List.reverseRecOn with
  | nil =>
    intro h
    exact Or.inl h
  | append_singleton l g ih =>
    intro h
    rw [List.foldl_append, List.foldl_cons, List.foldl_nil] at h
    cases htok : tokenizeFragment g with
    | empty =>
      rw [stepFn_empty_eq tc _ g htok] at h
      rcases ih h with h1 | ⟨l1, l2, f, v, hsp, hf, hlast⟩
      · exact Or.inl h1
      · refine Or.inr ⟨l1, l2 ++ [g], f, v, ?_, hf, ?_⟩
        · rw [hsp]
          simp [List.append_assoc]
        · intro g2 hg2 v' he
          rcases List.mem_append.mp hg2 with h2 | h2
          · exact hlast g2 h2 v' he
          · rw [List.mem_singleton.mp h2, htok] at he
            exact TokResult.noConfusion he
    | noEq =>
      rw [stepFn_noEq_eq tc _ g htok] at h
      rcases ih h with h1 | ⟨l1, l2, f, v, hsp, hf, hlast⟩
      · exact Or.inl h1
      · refine Or.inr ⟨l1, l2 ++ [g], f, v, ?_, hf, ?_⟩
        · rw [hsp]
          simp [List.append_assoc]
        · intro g2 hg2 v' he
          rcases List.mem_append.mp hg2 with h2 | h2
          · exact hlast g2 h2 v' he
          · rw [List.mem_singleton.mp h2, htok] at he
            exact TokResult.noConfusion he
    | nonSads =>
      rw [stepFn_nonSads_eq tc _ g htok] at h
      rcases ih h with h1 | ⟨l1, l2, f, v, hsp, hf, hlast⟩
      · exact Or.inl h1
      · refine Or.inr ⟨l1, l2 ++ [g], f, v, ?_, hf, ?_⟩
        · rw [hsp]
          simp [List.append_assoc]
        · intro g2 hg2 v' he
          rcases List.mem_append.mp hg2 with h2 | h2
          · exact hlast g2 h2 v' he
          · rw [List.mem_singleton.mp h2, htok] at he
            exact TokResult.noConfusion he
    | pair k2 v2 =>
      rw [stepFn_pair_eq tc _ g k2 v2 htok] at h
      by_cases hk : k = k2
      · subst hk
        exact Or.inr ⟨l, [], g, v2, rfl, htok,
          fun g2 hg2 => absurd hg2 (List.not_mem_nil g2)⟩
      · have h' : hasKey
            (mapInsert ((l.foldl (stepFn tc) acc)).1 k2
              (classifyValue tc k2 v2)) k = true := h
        rw [hasKey_mapInsert_ne _ k2 k _ hk] at h'
        rcases ih h' with h1 | ⟨l1, l2, f, v, hsp, hf, hlast⟩
        · exact Or.inl h1
        · refine Or.inr ⟨l1, l2 ++ [g], f, v, ?_, hf, ?_⟩
          · rw [hsp]
            simp [List.append_assoc]
          · intro g2 hg2 v' he
            rcases List.mem_append.mp hg2 with h2 | h2
            · exact hlast g2 h2 v' he
            · rw [List.mem_singleton.mp h2, htok] at he
              injection he with h3 _
              exact hk h3.symm

/-- C5: every key `k` present in the returned map has an originating pair:
the last accepted fragment `f` whose normalized key is `k`; the map's
entry at `k` is exactly the classification of that fragment's raw value
`v`, and whenever that entry is one of the four token-reference variants
(`color_token`, `spacing_token`, `font_weight_token`,
`border_radius_token`), the raw value `v` of the originating pair itself
existed verbatim as a key of the corresponding theme category, with the
stored payload its canonical form. -/
theorem sads_c5_token_vouched (s : String) (tc : Option ThemeContext) :
    ∀ k, hasKey (parse_llm_sads_string_to_dict s tc).1 k = true →
      ∃ l1 l2 f v, fragmentsOf s = l1 ++ f :: l2 ∧
        tokenizeFragment f = TokResult.pair k v ∧
        (∀ g ∈ l2, ∀ v', tokenizeFragment g ≠ TokResult.pair k v') ∧
        mapLookup (parse_llm_sads_string_to_dict s tc).1 k
          = some (classifyValue tc k v) ∧
        ∀ e ∈ classifyValue tc k v, TokenEntryOkFor tc v e := by
  intro k hk
  have hk' : hasKey (((fragmentsOf s).foldl (stepFn tc) ([], []))).1 k
      = true := hk
  rcases hasKey_origin tc (fragmentsOf s) ([], []) k hk' with
    h | ⟨l1, l2, f, v, hsplit, hf, hlast⟩
  · exact Bool.noConfusion h
  · exact ⟨l1, l2, f, v, hsplit, hf, hlast,
      parse_lookup_last s tc l1 l2 f k v hsplit hf hlast,
      classifyValue_vouches tc k v⟩

/-- Witness for C5: the key `bgColor` produced for
`data-sads-bgColor="primary"` originates from that very fragment, whose
raw value `primary` is vouched for verbatim by the colors category of
`demoTheme`. -/
theorem sads_c5_witness :
    ∃ l1 l2 f v,
      fragmentsOf "data-sads-bgColor=\"primary\"" = l1 ++ f :: l2 ∧
      tokenizeFragment f = TokResult.pair "bgColor" v ∧
      (∀ g ∈ l2, ∀ v', tokenizeFragment g ≠ TokResult.pair "bgColor" v') ∧
      mapLookup
        (parse_llm_sads_string_to_dict "data-sads-bgColor=\"primary\""
          (some demoTheme)).1 "bgColor"
        = some (classifyValue (some demoTheme) "bgColor" v) ∧
      ∀ e ∈ classifyValue (some demoTheme) "bgColor" v,
        TokenEntryOkFor (some demoTheme) v e :=
  sads_c5_token_vouched "data-sads-bgColor=\"primary\"" (some demoTheme)
    "bgColor" (by decide)

theorem charMapLookup_mem_values (l : List (Char × Char)) (c u : Char)
    (h : charMapLookup l c = some u) : u ∈ l.map Prod.snd := by
  induction l with
  | nil => exact Option.noConfusion h
  | cons p t ih =>
    unfold charMapLookup at h
    split at h
    · injection h with h
      rw [← h]
      exact List.mem_cons_self _ _
    · exact List.mem_cons_of_mem _ (ih h)

theorem pyUpperChar_hyphen (c : Char) (h : pyUpperChar c = '-') : c = '-' := by
  unfold pyUpperChar at h
  cases hl : charMapLookup upperTable c with
  | none =>
    rw [hl] at h
    exact h
  | some u =>
    rw [hl] at h
    have h' : u = '-' := h
    have hu : u ∈ upperTable.map Prod.snd := charMapLookup_mem_values _ c u hl
    rw [h'] at hu
    exact absurd hu (by decide)

theorem pyLowerChar_hyphen (c : Char) (h : pyLowerChar c = '-') : c = '-' := by
  unfold pyLowerChar at h
  cases hl : charMapLookup lowerTable c with
  | none =>
    rw [hl] at h
    exact h
  | some u =>
    rw [hl] at h
    have h' : u = '-' := h
    have hu : u ∈ lowerTable.map Prod.snd := charMapLookup_mem_values _ c u hl
    rw [h'] at hu
    exact absurd hu (by decide)

theorem splitChar_ne_nil (sep : Char) (l : List Char) :
    splitChar sep l ≠ [] := by
  cases l with
  | nil => simp [splitChar]
  | cons c t =>
    unfold splitChar
    split
    · simp
    · split
      · simp
      · simp

theorem splitChar_not_mem (sep : Char) :
    ∀ (l : List Char), ∀ part ∈ splitChar sep l, ¬ sep ∈ part := by
  intro l
  induction l with
  | nil =>
    intro part hp
    rw [List.mem_singleton.mp hp]
    exact List.not_mem_nil sep
  | cons c t ih =>
    intro part hp
    unfold splitChar at hp
    split at hp
    · rcases List.mem_cons.mp hp with h1 | h1
      · rw [h1]
        exact List.not_mem_nil sep
      · exact ih part h1
    · rename_i hc
      have hcne : ¬ sep = c := by
        intro e
        rw [e] at hc
        simp at hc
      cases hsp : splitChar sep t with
      | nil => exact absurd hsp (splitChar_ne_nil sep t)
      | cons hd r =>
        rw [hsp] at hp
        rcases List.mem_cons.mp hp with h1 | h1
        · rw [h1]
          intro hmem
          rcases List.mem_cons.mp hmem with h2 | h2
          · exact hcne h2
          · exact ih hd (hsp ▸ List.mem_cons_self hd r) h2
        · exact ih part (hsp ▸ List.mem_cons_of_mem hd h1)

theorem mem_pyCapitalize (part : List Char) (c : Char)
    (h : c ∈ pyCapitalize part) :
    ∃ d, d ∈ part ∧ (c = pyUpperChar d ∨ c = pyLowerChar d) := by
  cases part with
  | nil => cases h
  | cons a t =>
    rcases List.mem_cons.mp h with h1 | h1
    · exact ⟨a, List.mem_cons_self a t, Or.inl h1⟩
    · rcases List.mem_map.mp h1 with ⟨d, hd, he⟩
      exact ⟨d, List.mem_cons_of_mem a hd, Or.inr he.symm⟩

theorem normalizeKey_no_hyphen (s : String) :
    ¬ '-' ∈ (normalizeKey s).data := by
  unfold normalizeKey
  split
  · rename_i hcont
    cases hsp : splitChar '-' s.data with
    | nil => exact absurd hsp (splitChar_ne_nil '-' s.data)
    | cons p rest =>
      intro hmem
      rcases List.mem_append.mp hmem with h1 | h1
      · exact splitChar_not_mem '-' s.data p
          (hsp ▸ List.mem_cons_self p rest) h1
      · rcases List.mem_flatten.mp h1 with ⟨l', hl', hcl⟩
        rcases List.mem_map.mp hl' with ⟨part, hpart, hpe⟩
        rw [← hpe] at hcl
        rcases mem_pyCapitalize part '-' hcl with ⟨d, hd, hca | hca⟩
        · have : d = '-' := pyUpperChar_hyphen d hca.symm
          exact splitChar_not_mem '-' s.data part
            (hsp ▸ List.mem_cons_of_mem p hpart) (this ▸ hd)
        · have : d = '-' := pyLowerChar_hyphen d hca.symm
          exact splitChar_not_mem '-' s.data part
            (hsp ▸ List.mem_cons_of_mem p hpart) (this ▸ hd)
  · rename_i hcont
    intro hmem
    exact hcont (by simpa using hmem)

theorem tokenizeFragment_pair_key (f k v : String)
    (h : tokenizeFragment f = TokResult.pair k v) :
    ∃ s0, k = normalizeKey s0 := by
  unfold tokenizeFragment at h
  split at h
  · exact TokResult.noConfusion h
  · split at h
    · exact TokResult.noConfusion h
    · split at h
      · injection h with hk hv
        exact ⟨_, hk.symm⟩
      · exact TokResult.noConfusion h

theorem stepFn_key_inv (tc : Option ThemeContext) (Q : String → Prop)
    (hkey : ∀ f k v, tokenizeFragment f = TokResult.pair k v → Q k)
    (acc : AttrMap × List String) (f : String)
    (hacc : ∀ p ∈ acc.1, Q p.1) :
    ∀ p ∈ (stepFn tc acc f).1, Q p.1 := by
  intro p hp
  cases htok : tokenizeFragment f with
  | empty =>
    rw [stepFn_empty_eq tc acc f htok] at hp
    exact hacc p hp
  | noEq =>
    rw [stepFn_noEq_eq tc acc f htok] at hp
    exact hacc p hp
  | nonSads =>
    rw [stepFn_nonSads_eq tc acc f htok] at hp
    exact hacc p hp
  | pair k v =>
    rw [stepFn_pair_eq tc acc f k v htok] at hp
    rcases mem_mapInsert _ _ _ p hp with h1 | h1
    · exact hacc p h1
    · rw [h1]
      exact hkey f k v htok

theorem foldl_key_inv (tc : Option ThemeContext) (Q : String → Prop)
    (hkey : ∀ f k v, tokenizeFragment f = TokResult.pair k v → Q k) :
    ∀ (fs : List String) (acc : AttrMap × List String),
      (∀ p ∈ acc.1, Q p.1) → ∀ p ∈ (fs.foldl (stepFn tc) acc).1, Q p.1 := by
  intro fs
  induction fs with
  | nil => intro acc h; exact h
  | cons f rest ih =>
    intro acc h
    exact ih (stepFn tc acc f) (stepFn_key_inv tc Q hkey acc f h)

/-- Counterexample for C6: the input `data-sads-=x` is accepted by every
tokenizer check (it contains `=`, and its key `data-sads-` carries the
prefix), and it puts the EMPTY string into the returned map as a key, so
not every key of the returned map is non-empty. -/
theorem sads_c6_counterexample :
    ("", [("custom_value", "x")])
      ∈ (parse_llm_sads_string_to_dict "data-sads-=x" none).1 := by
  decide

/-- C6 as amended: every key of the returned map contains no hyphen (keys
can, however, be empty — see the counterexample). -/
theorem sads_c6_amended (s : String) (tc : Option ThemeContext) :
    ∀ p ∈ (parse_llm_sads_string_to_dict s tc).1, ¬ '-' ∈ p.1.data := by
  exact foldl_key_inv tc (fun k => ¬ '-' ∈ k.data)
    (fun f k v htok => by
      rcases tokenizeFragment_pair_key f k v htok with ⟨s0, hk⟩
      rw [hk]
      exact normalizeKey_no_hyphen s0)
    (fragmentsOf s) ([], []) (by intro p hp; cases hp)

/-- Witness for C6 (amended) at a concrete input: the key produced for
`data-sads-font-size="1.2em"` is hyphen-free. -/
theorem sads_c6_witness :
    ¬ '-' ∈ (("fontSize", [("font_size_value", "1.2em")])
      : String × AVDict).1.data :=
  sads_c6_amended "data-sads-font-size=\"1.2em\"" none
    ("fontSize", [("font_size_value", "1.2em")]) (by decide)

theorem strEta (s : String) : (⟨s.data⟩ : String) = s := rfl

theorem splitChar_of_not_mem (sep : Char) (l : List Char) (h : ¬ sep ∈ l) :
    splitChar sep l = [l] := by
  induction l with
  | nil => rfl
  | cons c t ih =>
    have hc : ¬ c = sep := fun e => h (e ▸ List.mem_cons_self c t)
    have ht : ¬ sep ∈ t := fun e => h (List.mem_cons_of_mem c e)
    unfold splitChar
    rw [if_neg (by simpa using hc), ih ht]

/-- Counterexample for C7: on the hyphenated name `Font-sIZE` the source
keeps the first segment unchanged (the claim lower-cases it) and
lower-cases the tail of each later segment (the claim capitalizes only the
first letter, leaving the rest): the code normalizes to `FontSize` where
the claim's described normalization yields `fontSIZE`. -/
theorem sads_c7_counterexample :
    normalizeKey "Font-sIZE" = "FontSize" ∧
    claimNormalizeKey "Font-sIZE" = "fontSIZE" ∧
    normalizeKey "Font-sIZE" ≠ claimNormalizeKey "Font-sIZE" := by
  refine ⟨by decide, by decide, by decide⟩

/-- C7 as amended: the source's normalization equals the split-and-
capitalize description with the first segment kept verbatim and Python
`capitalize` (upper first character, lower the rest) applied to every
later segment; and it is the identity on every hyphen-free name. -/
theorem sads_c7_amended (s : String) :
    normalizeKey s = amendedNormalizeKey s ∧
    (s.data.contains '-' = false → normalizeKey s = s) := by
  constructor
  · unfold normalizeKey amendedNormalizeKey
    split
    · rfl
    · rename_i hcont
      have h : ¬ '-' ∈ s.data := by simpa using hcont
      rw [splitChar_of_not_mem '-' s.data h]
      simp [strEta]
  · intro h
    unfold normalizeKey
    rw [h]
    rfl

/-- Witness for C7 (amended): normalizing the already-camel name
`fontWeight` agrees with the amended description and is a no-op. -/
theorem sads_c7_witness :
    normalizeKey "fontWeight" = amendedNormalizeKey "fontWeight" ∧
    normalizeKey "fontWeight" = "fontWeight" :=
  ⟨(sads_c7_amended "fontWeight").1, (sads_c7_amended "fontWeight").2 (by decide)⟩

theorem foldl_fst_filter (tc : Option ThemeContext) :
    ∀ (fs : List String) (acc : AttrMap × List String),
      ((fs.foldl (stepFn tc) acc)).1
        = (fs.filter fragAccepted).foldl (mapStep tc) acc.1 := by
  intro fs
  induction fs with
  | nil => intro acc; rfl
  | cons f rest ih =>
    intro acc
    rw [List.foldl_cons]
    cases htok : tokenizeFragment f with
    | empty =>
      have hfa : fragAccepted f = false := by
        unfold fragAccepted
        rw [htok]
      rw [stepFn_empty_eq tc acc f htok]
      simp only [List.filter_cons, hfa, if_false, Bool.false_eq_true]
      exact ih acc
    | noEq =>
      have hfa : fragAccepted f = false := by
        unfold fragAccepted
        rw [htok]
      rw [stepFn_noEq_eq tc acc f htok]
      simp only [List.filter_cons, hfa, if_false, Bool.false_eq_true]
      exact ih (acc.1, acc.2 ++ ["Warning: Skipping malformed attribute " ++ f])
    | nonSads =>
      have hfa : fragAccepted f = false := by
        unfold fragAccepted
        rw [htok]
      rw [stepFn_nonSads_eq tc acc f htok]
      simp only [List.filter_cons, hfa, if_false, Bool.false_eq_true]
      exact ih (acc.1, acc.2 ++ ["Warning: Skipping non-SADS attribute " ++ f])
    | pair k v =>
      have hfa : fragAccepted f = true := by
        unfold fragAccepted
        rw [htok]
      have hms : mapStep tc acc.1 f = mapInsert acc.1 k (classifyValue tc k v) := by
        unfold mapStep
        rw [htok]
      rw [stepFn_pair_eq tc acc f k v htok]
      simp only [List.filter_cons, hfa, if_true]
      rw [List.foldl_cons, hms]
      exact ih (mapInsert acc.1 k (classifyValue tc k v), acc.2)

theorem countMalformed_cons_false (f : String) (t : List String)
    (h : fragMalformed f = false) :
    countMalformed (f :: t) = countMalformed t := by
  show (if fragMalformed f then 1 else 0) + countMalformed t = countMalformed t
  rw [h]
  simp

theorem countMalformed_cons_true (f : String) (t : List String)
    (h : fragMalformed f = true) :
    countMalformed (f :: t) = 1 + countMalformed t := by
  show (if fragMalformed f then 1 else 0) + countMalformed t
    = 1 + countMalformed t
  rw [h]
  rfl

theorem foldl_snd_count (tc : Option ThemeContext) :
    ∀ (fs : List String) (acc : AttrMap × List String),
      ((fs.foldl (stepFn tc) acc)).2.length
        = acc.2.length + countMalformed fs := by
  intro fs
  induction fs with
  | nil => intro acc; simp [countMalformed]
  | cons f rest ih =>
    intro acc
    rw [List.foldl_cons]
    cases htok : tokenizeFragment f with
    | empty =>
      have hm : fragMalformed f = false := by
        unfold fragMalformed
        rw [htok]
      rw [stepFn_empty_eq tc acc f htok, ih acc,
        countMalformed_cons_false f rest hm]
    | noEq =>
      have hm : fragMalformed f = true := by
        unfold fragMalformed
        rw [htok]
      rw [stepFn_noEq_eq tc acc f htok, ih _,
        countMalformed_cons_true f rest hm]
      simp only [List.length_append, List.length_cons, List.length_nil]
      omega
    | nonSads =>
      have hm : fragMalformed f = true := by
        unfold fragMalformed
        rw [htok]
      rw [stepFn_nonSads_eq tc acc f htok, ih _,
        countMalformed_cons_true f rest hm]
      simp only [List.length_append, List.length_cons, List.length_nil]
      omega
    | pair k v =>
      have hm : fragMalformed f = false := by
        unfold fragMalformed
        rw [htok]
      rw [stepFn_pair_eq tc acc f k v htok, ih _,
        countMalformed_cons_false f rest hm]

/-- C8: malformed fragments (nonempty, lacking `=` or the `data-sads-`
prefix) never contribute to the returned map — it equals the fold over the
accepted fragments alone — each such fragment is charged exactly one
recorded diagnostic (the count of diagnostics equals the count of
malformed fragments), no exception is raised (the engine is total by
construction), and every accepted fragment of the same input still lands
in the map under its normalized key. -/
theorem sads_c8_malformed_skipped (s : String) (tc : Option ThemeContext) :
    (parse_llm_sads_string_to_dict s tc).1
      = ((fragmentsOf s).filter fragAccepted).foldl (mapStep tc) [] ∧
    (parse_llm_sads_string_to_dict s tc).2.length
      = countMalformed (fragmentsOf s) ∧
    (∀ f ∈ fragmentsOf s, fragAccepted f = true →
      ∃ k v, tokenizeFragment f = TokResult.pair k v ∧
        hasKey (parse_llm_sads_string_to_dict s tc).1 k = true) := by
  refine ⟨?_, ?_, ?_⟩
  · exact foldl_fst_filter tc (fragmentsOf s) ([], [])
  · simpa using foldl_snd_count tc (fragmentsOf s) ([], [])
  · intro f hf hacc
    cases htok : tokenizeFragment f with
    | empty => simp [fragAccepted, htok] at hacc
    | noEq => simp [fragAccepted, htok] at hacc
    | nonSads => simp [fragAccepted, htok] at hacc
    | pair k v =>
      exact ⟨k, v, rfl,
        foldl_pair_hasKey tc (fragmentsOf s) ([], []) f k v hf htok⟩

/-- Witness for C8 at the spec's concrete scenario: in
`data-sads-opacity data-sads-bgColor="primary"` the `=`-less fragment is
charged one diagnostic while the valid fragment is still classified into
the map. -/
theorem sads_c8_witness :
    (parse_llm_sads_string_to_dict
      "data-sads-opacity data-sads-bgColor=\"primary\""
      (some demoTheme)).2.length
      = countMalformed
          (fragmentsOf "data-sads-opacity data-sads-bgColor=\"primary\"") ∧
    (∃ k v, tokenizeFragment "data-sads-bgColor=\"primary\""
        = TokResult.pair k v ∧
      hasKey
        (parse_llm_sads_string_to_dict
          "data-sads-opacity data-sads-bgColor=\"primary\""
          (some demoTheme)).1 k = true) :=
  ⟨(sads_c8_malformed_skipped
      "data-sads-opacity data-sads-bgColor=\"primary\"" (some demoTheme)).2.1,
   (sads_c8_malformed_skipped
      "data-sads-opacity data-sads-bgColor=\"primary\"" (some demoTheme)).2.2
     "data-sads-bgColor=\"primary\"" (by decide) (by decide)⟩

theorem strDataAppend (a b : String) : (a ++ b).data = a.data ++ b.data := rfl

theorem map_roundtrip (l : List Char) (hl : ∀ c ∈ l, c ∈ tokenCharList) :
    ((l.map pyUpperChar).map (fun c => if c == '-' then '_' else c)).map
      pyLowerChar = l := by
  induction l with
  | nil => rfl
  | cons c t ih =>
    simp only [List.map_cons]
    rw [ih (fun d hd => hl d (List.mem_cons_of_mem c hd))]
    have hc : c ∈ tokenCharList := hl c (List.mem_cons_self c t)
    have hhead : pyLowerChar (if pyUpperChar c == '-' then '_'
        else pyUpperChar c) = c := by
      fin_cases hc <;> decide
    rw [hhead]

/-- Counterexample for C9: a colors table may hold the two distinct token
names `m` and `M`; the engine canonicalises both matches to the same
stored string `COLOR_TOKEN_M`, so the canonical form is not injective on
the token names of a category map and the original name is not
recoverable. -/
theorem sads_c9_counterexample :
    ("m" : String) ≠ "M" ∧
    classifyValue (some caseTheme) "bgColor" "m"
      = classifyValue (some caseTheme) "bgColor" "M" ∧
    classifyValue (some caseTheme) "bgColor" "m"
      = [("color_token", "COLOR_TOKEN_M")] := by
  refine ⟨by decide, by decide, by decide⟩

/-- C9 as amended: the canonical form is a deterministic function of the
matched token name (upper-case with hyphens replaced by underscores,
after a category tag); restricted to token names over lowercase letters,
digits and underscores it is reversible — lower-casing the stored form
recovers the name — and therefore injective even after the category tag
is prepended.  Names differing only by letter case, or by `-` versus `_`,
do collide (see the counterexample). -/
theorem sads_c9_amended (pre v w : String)
    (hv : ∀ c ∈ v.data, c ∈ tokenCharList)
    (hw : ∀ c ∈ w.data, c ∈ tokenCharList) :
    (⟨(canonToken v).data.map pyLowerChar⟩ : String) = v ∧
    (pre ++ canonToken v = pre ++ canonToken w → v = w) := by
  have rv : (canonToken v).data.map pyLowerChar = v.data :=
    map_roundtrip v.data hv
  have rw2 : (canonToken w).data.map pyLowerChar = w.data :=
    map_roundtrip w.data hw
  constructor
  · rw [rv]
  · intro h
    have hd : pre.data ++ (canonToken v).data
        = pre.data ++ (canonToken w).data := by
      rw [← strDataAppend, ← strDataAppend, h]
    have hc : (canonToken v).data = (canonToken w).data :=
      List.append_cancel_left hd
    have hvw : v.data = w.data := by
      rw [← rv, ← rw2, hc]
    calc v = ⟨v.data⟩ := (strEta v).symm
      _ = ⟨w.data⟩ := by rw [hvw]
      _ = w := strEta w

/-- Witness for C9 (amended) at the token name `primary`: the canonical
form `COLOR_TOKEN_PRIMARY` lower-cases back to the original name. -/
theorem sads_c9_witness :
    (⟨(canonToken "primary").data.map pyLowerChar⟩ : String) = "primary" ∧
    ("COLOR_TOKEN_" ++ canonToken "primary"
        = "COLOR_TOKEN_" ++ canonToken "primary" →
      ("primary" : String) = "primary") :=
  sads_c9_amended "COLOR_TOKEN_" "primary" "primary" (by decide) (by decide)

theorem strExt (x y : String) (h : x.data = y.data) : x = y := by
  calc x = ⟨x.data⟩ := (strEta x).symm
    _ = ⟨y.data⟩ := by rw [h]
    _ = y := strEta y

theorem leadsWith_append (pre rest : List Char) :
    leadsWith pre (pre ++ rest) = true := by
  induction pre with
  | nil => rfl
  | cons a t ih => simp [leadsWith, ih]

theorem splitFirst_append (sep : Char) (l1 l2 : List Char)
    (h : ¬ sep ∈ l1) :
    splitFirst sep (l1 ++ sep :: l2) = some (l1, l2) := by
  induction l1 with
  | nil => simp [splitFirst]
  | cons c t ih =>
    have hc : ¬ c = sep := fun e => h (e ▸ List.mem_cons_self c t)
    have ht : ¬ sep ∈ t := fun e => h (List.mem_cons_of_mem c e)
    have hstep : splitFirst sep (c :: (t ++ sep :: l2))
        = if (c == sep) = true then some ([], t ++ sep :: l2)
          else Option.map (fun p => (c :: p.1, p.2))
            (splitFirst sep (t ++ sep :: l2)) := rfl
    rw [List.cons_append, hstep, if_neg (by simpa using hc), ih ht]
    rfl

theorem dropWhile_of_all_not (p : Char → Bool) (l : List Char)
    (h : ∀ c ∈ l, p c = false) : l.dropWhile p = l := by
  cases l with
  | nil => rfl
  | cons c t => simp [List.dropWhile_cons, h c (List.mem_cons_self c t)]

theorem stripEnds_of_all_not (p : Char → Bool) (l : List Char)
    (h : ∀ c ∈ l, p c = false) :
    stripEnds p l = l := by
  unfold stripEnds
  rw [dropWhile_of_all_not p l h,
    dropWhile_of_all_not p l.reverse (fun c hc => h c (List.mem_reverse.mp hc))]
  exact List.reverse_reverse l

theorem stripEnds_cons_of (p : Char → Bool) (q : Char) (l : List Char)
    (hq : p q = true) : stripEnds p (q :: l) = stripEnds p l := by
  simp [stripEnds, List.dropWhile_cons, hq]

theorem stripEnds_concat_of (p : Char → Bool) (q : Char) (l : List Char)
    (hq : p q = true) : stripEnds p (l ++ [q]) = stripEnds p l := by
  unfold stripEnds
  rw [List.dropWhile_append]
  by_cases hnil : (l.dropWhile p).isEmpty
  · rw [if_pos hnil]
    have h1 : List.dropWhile p [q] = [] := by
      simp [List.dropWhile_cons, hq]
    have h2 : l.dropWhile p = [] := by
      simpa [List.isEmpty_iff] using hnil
    rw [h1, h2]
  · rw [if_neg hnil]
    rw [List.reverse_append]
    simp only [List.reverse_cons, List.reverse_nil, List.nil_append,
      List.singleton_append]
    rw [List.dropWhile_cons]
    simp [hq]

theorem stripEnds_wrap (p : Char → Bool) (q : Char) (l : List Char)
    (hq : p q = true) :
    stripEnds p (q :: (l ++ [q])) = stripEnds p l := by
  rw [stripEnds_cons_of p q _ hq, stripEnds_concat_of p q l hq]

theorem pyStripQuotes_wrap (v : String) :
    pyStripQuotes ("\"" ++ v ++ "\"") = pyStripQuotes v := by
  unfold pyStripQuotes
  congr 1
  have hd : ("\"" ++ v ++ "\"").data = '"' :: (v.data ++ ['"']) := by
    rw [strDataAppend, strDataAppend]
    rfl
  rw [hd]
  exact stripEnds_wrap _ '"' v.data (by decide)

theorem dataSads_no_ws : ∀ c ∈ "data-sads-".data, pyIsSpace c = false := by
  decide

theorem dataSads_no_eq : ¬ '=' ∈ "data-sads-".data := by
  decide

theorem tokenizeFragment_shape (a w : String)
    (ha : ∀ c ∈ a.data, pyIsSpace c = false ∧ ¬ c = '=')
    (hw : ∀ c ∈ w.data, pyIsSpace c = false) :
    tokenizeFragment ("data-sads-" ++ a ++ "=" ++ w)
      = TokResult.pair (normalizeKey a) (pyStripQuotes w) := by
  have hdata : ("data-sads-" ++ a ++ "=" ++ w).data
      = ("data-sads-".data ++ a.data) ++ '=' :: w.data := by
    rw [strDataAppend, strDataAppend, strDataAppend, List.append_assoc,
      show "=".data = ['='] from rfl, List.singleton_append]
  have hno : ∀ c ∈ ("data-sads-" ++ a ++ "=" ++ w).data,
      pyIsSpace c = false := by
    intro c hc
    rw [hdata] at hc
    rcases List.mem_append.mp hc with h1 | h1
    · rcases List.mem_append.mp h1 with h2 | h2
      · exact dataSads_no_ws c h2
      · exact (ha c h2).1
    · rcases List.mem_cons.mp h1 with h2 | h2
      · rw [h2]
        decide
      · exact hw c h2
  have hstrip : pyStrip ("data-sads-" ++ a ++ "=" ++ w)
      = ("data-sads-" ++ a ++ "=" ++ w) := by
    unfold pyStrip
    rw [stripEnds_of_all_not pyIsSpace _ hno]
  have hne : (("data-sads-" ++ a ++ "=" ++ w) == "") = false := by
    apply beq_eq_false_iff_ne.mpr
    intro e
    have hd : ("data-sads-" ++ a ++ "=" ++ w).data = [] := by
      rw [e]
    rw [hdata] at hd
    exact List.noConfusion (List.append_eq_nil.mp hd).2
  have hsf : splitFirst '=' ("data-sads-" ++ a ++ "=" ++ w).data
      = some ("data-sads-".data ++ a.data, w.data) := by
    rw [hdata]
    apply splitFirst_append
    intro hmem
    rcases List.mem_append.mp hmem with h1 | h1
    · exact dataSads_no_eq h1
    · exact (ha '=' h1).2 rfl
  have hak : ∀ c ∈ ("data-sads-".data ++ a.data), pyIsSpace c = false := by
    intro c hc
    rcases List.mem_append.mp hc with h1 | h1
    · exact dataSads_no_ws c h1
    · exact (ha c h1).1
  have hk0 : stripEnds pyIsSpace ("data-sads-".data ++ a.data)
      = "data-sads-".data ++ a.data := stripEnds_of_all_not _ _ hak
  have hadata : stripEnds pyIsSpace a.data = a.data :=
    stripEnds_of_all_not _ _ (fun c hc => (ha c hc).1)
  have hwdata : stripEnds pyIsSpace w.data = w.data :=
    stripEnds_of_all_not _ _ hw
  unfold tokenizeFragment
  split
  · rename_i hcond
    rw [hstrip, hne] at hcond
    exact Bool.noConfusion hcond
  · split
    · rename_i heq
      rw [hsf] at heq
      exact Option.noConfusion heq
    · rename_i k0 v0 heq
      rw [hsf] at heq
      injection heq with heq
      injection heq with hk hv2
      subst hk
      subst hv2
      split
      · rw [hk0, List.drop_left, hadata, hwdata, strEta, strEta]
      · rename_i hlw
        rw [hk0] at hlw
        exact absurd (leadsWith_append "data-sads-".data a.data) hlw

theorem fragmentsOf_single (s : String)
    (hne : (s == "") = false)
    (hns : ∀ c ∈ s.data, pyIsSpace c = false) :
    fragmentsOf s = [s] := by
  unfold fragmentsOf
  split
  · rename_i h
    rw [hne] at h
    exact Bool.noConfusion h
  · have hstrip : pyStrip s = s := by
      unfold pyStrip
      rw [stripEnds_of_all_not pyIsSpace _ hns]
    rw [hstrip, splitChar_of_not_mem ' ' s.data
      (fun hmem => absurd (hns ' ' hmem) (by decide))]
    rfl

/-- C10: a fragment `data-sads-<attr>=<value>` whose value carries no
surrounding double quotes (attr and value free of whitespace, attr free of
`=`) is accepted by the tokenizer and classified exactly as its quoted
form `data-sads-<attr>="<value>"`: both tokenize to the same pair (the
value's quote-strip removes all leading and trailing `"` characters, so
wrapping quotes change nothing), and the whole parse of either
single-fragment input returns the same result for every theme context. -/
theorem sads_c10_unquoted (a v : String) (tc : Option ThemeContext)
    (ha : ∀ c ∈ a.data, pyIsSpace c = false ∧ ¬ c = '=')
    (hv : ∀ c ∈ v.data, pyIsSpace c = false) :
    tokenizeFragment ("data-sads-" ++ a ++ "=" ++ v)
      = TokResult.pair (normalizeKey a) (pyStripQuotes v) ∧
    tokenizeFragment ("data-sads-" ++ a ++ "=\"" ++ v ++ "\"")
      = TokResult.pair (normalizeKey a) (pyStripQuotes v) ∧
    parse_llm_sads_string_to_dict ("data-sads-" ++ a ++ "=" ++ v) tc
      = parse_llm_sads_string_to_dict
          ("data-sads-" ++ a ++ "=\"" ++ v ++ "\"") tc := by
  have hq : ("data-sads-" ++ a ++ "=\"" ++ v ++ "\"")
      = ("data-sads-" ++ a ++ "=" ++ ("\"" ++ v ++ "\"")) := by
    apply strExt
    simp only [strDataAppend, List.append_assoc]
    rfl
  have hwq : ∀ c ∈ ("\"" ++ v ++ "\"").data, pyIsSpace c = false := by
    intro c hc
    have hd : ("\"" ++ v ++ "\"").data = '"' :: (v.data ++ ['"']) := by
      rw [strDataAppend, strDataAppend]
      rfl
    rw [hd] at hc
    rcases List.mem_cons.mp hc with h2 | h2
    · rw [h2]
      decide
    · rcases List.mem_append.mp h2 with h3 | h3
      · exact hv c h3
      · rw [List.mem_singleton.mp h3]
        decide
  have h1 : tokenizeFragment ("data-sads-" ++ a ++ "=" ++ v)
      = TokResult.pair (normalizeKey a) (pyStripQuotes v) :=
    tokenizeFragment_shape a v ha hv
  have h2 : tokenizeFragment ("data-sads-" ++ a ++ "=\"" ++ v ++ "\"")
      = TokResult.pair (normalizeKey a) (pyStripQuotes v) := by
    rw [hq, tokenizeFragment_shape a ("\"" ++ v ++ "\"") ha hwq,
      pyStripQuotes_wrap v]
  refine ⟨h1, h2, ?_⟩
  have hdne : ∀ (w : String), (("data-sads-" ++ a ++ "=" ++ w) == "")
      = false := by
    intro w
    apply beq_eq_false_iff_ne.mpr
    intro e
    have hd : ("data-sads-" ++ a ++ "=" ++ w).data = [] := by
      rw [e]
    rw [strDataAppend] at hd
    have h3 := (List.append_eq_nil.mp hd).1
    rw [strDataAppend] at h3
    exact absurd (List.append_eq_nil.mp h3).2 (by decide)
  have hnsg : ∀ (w : String), (∀ c ∈ w.data, pyIsSpace c = false) →
      ∀ c ∈ ("data-sads-" ++ a ++ "=" ++ w).data, pyIsSpace c = false := by
    intro w hwf c hc
    rw [strDataAppend] at hc
    rcases List.mem_append.mp hc with h3 | h3
    · rw [strDataAppend] at h3
      rcases List.mem_append.mp h3 with h4 | h4
      · rw [strDataAppend] at h4
        rcases List.mem_append.mp h4 with h5 | h5
        · exact dataSads_no_ws c h5
        · exact (ha c h5).1
      · rw [List.mem_singleton.mp h4]
        decide
    · exact hwf c h3
  have hfr1 : fragmentsOf ("data-sads-" ++ a ++ "=" ++ v)
      = ["data-sads-" ++ a ++ "=" ++ v] :=
    fragmentsOf_single _ (hdne v) (hnsg v hv)
  have hfr2 : fragmentsOf ("data-sads-" ++ a ++ "=\"" ++ v ++ "\"")
      = ["data-sads-" ++ a ++ "=\"" ++ v ++ "\""] := by
    rw [hq]
    exact fragmentsOf_single _ (hdne ("\"" ++ v ++ "\""))
      (hnsg ("\"" ++ v ++ "\"") hwq)
  unfold parse_llm_sads_string_to_dict
  rw [hfr1, hfr2, List.foldl_cons, List.foldl_cons, List.foldl_nil,
    List.foldl_nil, stepFn_pair_eq tc ([], []) _ _ _ h1,
    stepFn_pair_eq tc ([], []) _ _ _ h2]

/-- Witness for C10: `data-sads-bgColor=primary` (unquoted) parses exactly
like `data-sads-bgColor="primary"`. -/
theorem sads_c10_witness :
    parse_llm_sads_string_to_dict "data-sads-bgColor=primary"
        (some demoTheme)
      = parse_llm_sads_string_to_dict "data-sads-bgColor=\"primary\""
        (some demoTheme) :=
  (sads_c10_unquoted "bgColor" "primary" (some demoTheme)
    (by decide) (by decide)).2.2

